import Mathlib

/-!
Verification of the OTX pulse ETL connector
(`etl_connector.py`): a shallow embedding of its fetcher
(`fetch_with_retries`), paginator (`extract_pulses`), transform
(`transform_pulse`) and loader (`load_pulses`), together with theorems
settling the specified properties.
-/

namespace ETL

/-- JSON-like values as produced by `resp.json()` and stored in MongoDB.
Python `None` is `null`; dictionaries are ordered association lists, as
Python dicts preserve insertion order. -/
inductive Value where
  | null : Value
  | bool : Bool → Value
  | int : Int → Value
  | str : String → Value
  | list : List Value → Value
  | obj : List (String × Value) → Value

mutual

def decEqValue : (a b : Value) → Decidable (a = b)
  | .null, .null => isTrue rfl
  | .null, .bool _ => isFalse nofun
  | .null, .int _ => isFalse nofun
  | .null, .str _ => isFalse nofun
  | .null, .list _ => isFalse nofun
  | .null, .obj _ => isFalse nofun
  | .bool _, .null => isFalse nofun
  | .bool a, .bool b =>
      match decEq a b with
      | isTrue h => isTrue (by rw [h])
      | isFalse h => isFalse (fun hh => h (Value.bool.inj hh))
  | .bool _, .int _ => isFalse nofun
  | .bool _, .str _ => isFalse nofun
  | .bool _, .list _ => isFalse nofun
  | .bool _, .obj _ => isFalse nofun
  | .int _, .null => isFalse nofun
  | .int _, .bool _ => isFalse nofun
  | .int a, .int b =>
      match decEq a b with
      | isTrue h => isTrue (by rw [h])
      | isFalse h => isFalse (fun hh => h (Value.int.inj hh))
  | .int _, .str _ => isFalse nofun
  | .int _, .list _ => isFalse nofun
  | .int _, .obj _ => isFalse nofun
  | .str _, .null => isFalse nofun
  | .str _, .bool _ => isFalse nofun
  | .str _, .int _ => isFalse nofun
  | .str a, .str b =>
      match decEq a b with
      | isTrue h => isTrue (by rw [h])
      | isFalse h => isFalse (fun hh => h (Value.str.inj hh))
  | .str _, .list _ => isFalse nofun
  | .str _, .obj _ => isFalse nofun
  | .list _, .null => isFalse nofun
  | .list _, .bool _ => isFalse nofun
  | .list _, .int _ => isFalse nofun
  | .list _, .str _ => isFalse nofun
  | .list xs, .list ys =>
      match decEqValueList xs ys with
      | isTrue h => isTrue (by rw [h])
      | isFalse h => isFalse (fun hh => h (Value.list.inj hh))
  | .list _, .obj _ => isFalse nofun
  | .obj _, .null => isFalse nofun
  | .obj _, .bool _ => isFalse nofun
  | .obj _, .int _ => isFalse nofun
  | .obj _, .str _ => isFalse nofun
  | .obj _, .list _ => isFalse nofun
  | .obj xs, .obj ys =>
      match decEqFieldList xs ys with
      | isTrue h => isTrue (by rw [h])
      | isFalse h => isFalse (fun hh => h (Value.obj.inj hh))

def decEqValueList : (xs ys : List Value) → Decidable (xs = ys)
  | [], [] => isTrue rfl
  | [], _ :: _ => isFalse nofun
  | _ :: _, [] => isFalse nofun
  | x :: xs, y :: ys =>
      match decEqValue x y, decEqValueList xs ys with
      | isTrue h1, isTrue h2 => isTrue (by rw [h1, h2])
      | isFalse h1, _ => isFalse (fun hh => h1 (List.cons.inj hh).1)
      | _, isFalse h2 => isFalse (fun hh => h2 (List.cons.inj hh).2)

def decEqFieldList : (xs ys : List (String × Value)) → Decidable (xs = ys)
  | [], [] => isTrue rfl
  | [], _ :: _ => isFalse nofun
  | _ :: _, [] => isFalse nofun
  | (k, v) :: xs, (k', v') :: ys =>
      match decEq k k', decEqValue v v', decEqFieldList xs ys with
      | isTrue h1, isTrue h2, isTrue h3 => isTrue (by rw [h1, h2, h3])
      | isFalse h1, _, _ =>
          isFalse (fun hh => h1 (congrArg Prod.fst (List.cons.inj hh).1))
      | _, isFalse h2, _ =>
          isFalse (fun hh => h2 (congrArg Prod.snd (List.cons.inj hh).1))
      | _, _, isFalse h3 => isFalse (fun hh => h3 (List.cons.inj hh).2)

end

instance : DecidableEq Value := decEqValue

/-- A Python dict with JSON-like values (ordered, keys unique in practice). -/
abbrev Obj := List (String × Value)

/-- `d.get(k, dflt)` on a Python dict: first binding of `k`, else the default. -/
def getD (o : Obj) (k : String) (dflt : Value) : Value :=
  match o with
  | [] => dflt
  | (k', v) :: rest => if k' = k then v else getD rest k dflt

/-- `d.get(k)` on a Python dict: the binding of `k`, else `None`. -/
def getV (o : Obj) (k : String) : Value :=
  getD o k Value.null

/-- `k in d` on a Python dict. -/
def hasKey (o : Obj) (k : String) : Bool :=
  match o with
  | [] => false
  | (k', _) :: rest => k' = k || hasKey rest k

/-- Python truthiness of a JSON-like value: `None`, `False`, `0`, `""`,
`[]` and `{}` are falsy, everything else truthy. -/
def truthy : Value → Bool
  | .null => false
  | .bool b => b
  | .int n => n != 0
  | .str s => s != ""
  | .list xs => !xs.isEmpty
  | .obj fs => !fs.isEmpty

/-- `transform_pulse` (lines 84-95): project a raw pulse dict onto the
fixed normalized shape; `id` is renamed to `_id`, list-typed fields
default to `[]`, the rest to `None`. -/
def transform_pulse (pulse : Obj) : Obj :=
  [ ("_id", getV pulse "id"),
    ("name", getV pulse "name"),
    ("description", getV pulse "description"),
    ("author_name", getV pulse "author_name"),
    ("created", getV pulse "created"),
    ("modified", getV pulse "modified"),
    ("tags", getD pulse "tags" (Value.list [])),
    ("references", getD pulse "references" (Value.list [])) ]

/-- Set one field of a document, replacing in place if present, else
appending (Python dict assignment / one key of Mongo `$set`). -/
def setField (o : Obj) (key : String) (v : Value) : Obj :=
  match o with
  | [] => [(key, v)]
  | (k, w) :: rest =>
      if k = key then (key, v) :: rest else (k, w) :: setField rest key v

/-- Mongo `$set` with an update document: set each field in order. -/
def setFields (o : Obj) (updates : Obj) : Obj :=
  updates.foldl (fun acc kv => setField acc kv.1 kv.2) o

/-- The MongoDB collection, as an ordered association of `_id` keys to
documents. -/
abbrev Store := List (Value × Obj)

/-- `collection.update_one({"_id": key}, {"$set": doc}, upsert=True)`:
if a document with that `_id` exists, `$set` its fields in place and
report no upsert (`false`); otherwise insert and report an upsert
(`true`, i.e. `result.upserted_id is not None`). -/
def update_one (store : Store) (key : Value) (doc : Obj) : Store × Bool :=
  match store with
  | [] => ([(key, doc)], true)
  | (k, d) :: rest =>
      if k = key then ((k, setFields d doc) :: rest, false)
      else
        let (s, b) := update_one rest key doc
        ((k, d) :: s, b)

/-- `load_pulses` (lines 98-113): transform each pulse, skip those whose
transformed `_id` is falsy (logging a warning), upsert the rest, and
return the number of newly inserted documents. -/
def load_pulses (pulses : List Obj) (store : Store) : Store × Nat :=
  match pulses with
  | [] => (store, 0)
  | p :: rest =>
      let t := transform_pulse p
      if truthy (getV t "_id") then
        let (store', inserted) := update_one store (getV t "_id") t
        let (store'', n) := load_pulses rest store'
        (store'', (if inserted then 1 else 0) + n)
      else
        load_pulses rest store

/-- The page loop of `run_etl` (lines 122-127): load each page in turn,
accumulating the total count of newly inserted documents. -/
def run_etl_loop (pages : List (List Obj)) (store : Store) : Store × Nat :=
  match pages with
  | [] => (store, 0)
  | pg :: rest =>
      let (s1, n1) := load_pulses pg store
      let (s2, n2) := run_etl_loop rest s1
      (s2, n1 + n2)

/-- What one `requests.get` attempt comes back as: an HTTP response with a
status code and parsed JSON body, or a raised `requests.RequestException`. -/
inductive HttpResult where
  | response : Nat → Value → HttpResult
  | exn : HttpResult

/-- `true` exactly for the transient outcomes `fetch_with_retries`
retries after (a 429 response or a network exception). -/
def isTransient : HttpResult → Bool
  | .response c _ => c == 429
  | .exn => true

/-- Observable outcome of `fetch_with_retries`: the returned value
(`none` models Python `None`), the sequence of `time.sleep` durations
performed, in order, and the number of HTTP attempts issued. -/
structure FetchOut where
  result : Option Value
  sleeps : List Nat
  attemptsMade : Nat

/-- The `for attempt in range(retries)` loop of `fetch_with_retries`
(lines 39-54), with `server n` giving the outcome of the `n`-th HTTP
attempt. On 200 return the body; on 429 or a network exception sleep
`backoff_factor * 2^attempt` and continue; on any other status break. -/
def fetchGo (server : Nat → HttpResult) (backoff_factor : Nat) :
    Nat → Nat → FetchOut
  | _, 0 => ⟨none, [], 0⟩
  | attempt, fuel + 1 =>
      match server attempt with
      | .response code body =>
          if code = 200 then ⟨some body, [], 1⟩
          else if code = 429 then
            let wait := backoff_factor * 2 ^ attempt
            let rest := fetchGo server backoff_factor (attempt + 1) fuel
            ⟨rest.result, wait :: rest.sleeps, 1 + rest.attemptsMade⟩
          else ⟨none, [], 1⟩
      | .exn =>
          let wait := backoff_factor * 2 ^ attempt
          let rest := fetchGo server backoff_factor (attempt + 1) fuel
          ⟨rest.result, wait :: rest.sleeps, 1 + rest.attemptsMade⟩

/-- `fetch_with_retries` (lines 37-56): run up to `retries` attempts from
attempt 0; falling out of the loop (budget exhausted or break) returns
`None`. The call sites use the defaults `retries = 3`,
`backoff_factor = 2`. -/
def fetch_with_retries (server : Nat → HttpResult)
    (retries backoff_factor : Nat) : FetchOut :=
  fetchGo server backoff_factor 0 retries

/-- `MAX_PAGES` (line 27). -/
def MAX_PAGES : Nat := 5

/-- The default `BASE_URL` (line 22). -/
def BASE_URL : String := "https://otx.alienvault.com/api/v1/pulses/subscribed"

/-- The `while url and page_count < MAX_PAGES` loop of `extract_pulses`
(lines 64-79), with `fetchAt url` giving what `fetch_with_retries`
returns at that url. A non-dict payload (including fetch failure `None`)
or a missing/non-list `results` breaks; otherwise the page's results are
yielded and the url advances to the payload's `next` field. `fuel`
starting at `MAX_PAGES` is exact: the count check fails no later than
fuel runs out. -/
def extract_loop (fetchAt : Value → Option Value) :
    Value → Nat → Nat → List (List Value)
  | _, _, 0 => []
  | url, page_count, fuel + 1 =>
      if truthy url = true ∧ page_count < MAX_PAGES then
        match fetchAt url with
        | none => []
        | some data =>
            match data with
            | .obj fields =>
                match getV fields "results" with
                | .list results =>
                    results ::
                      extract_loop fetchAt (getV fields "next")
                        (page_count + 1) fuel
                | _ => []
            | _ => []
      else []

/-- `extract_pulses` (lines 59-81): drive the page loop from the
configured base url with the page counter at 0. -/
def extract_pulses (fetchAt : Value → Option Value) : List (List Value) :=
  extract_loop fetchAt (Value.str BASE_URL) 0 MAX_PAGES

/-- Server used for the C1 counterexample and witness: three consecutive
rate-limit responses, then a success. -/
def rateLimitedServer : Nat → HttpResult := fun n =>
  if n < 3 then .response 429 Value.null else .response 200 (Value.str "ok")

/-- Server used for the C7 witness: an immediate 404. -/
def notFoundServer : Nat → HttpResult := fun _ => .response 404 Value.null

/-- Server used for the C9 witness: network errors on every attempt. -/
def downServer : Nat → HttpResult := fun _ => .exn

/-- Raw pulse with a non-null identifier, for the C2 counterexample. -/
def idPulse : Obj := [("id", Value.str "p1")]

/-- Server for the C4 witness: always one more (empty) page. -/
def loopingServer : Value → Option Value := fun _ =>
  some (Value.obj [("results", Value.list []), ("next", Value.str "more")])

/-- Server for the C6 witness: a mapping with no `results` field. -/
def noResultsServer : Value → Option Value := fun _ =>
  some (Value.obj [("error", Value.str "oops")])

/-- The raw record of the example page. -/
def rawPulseP1 : Obj := [("id", Value.str "p1"), ("name", Value.str "X")]

/-- The normalized document the example page should produce. -/
def normalizedP1 : Obj :=
  [ ("_id", Value.str "p1"),
    ("name", Value.str "X"),
    ("description", Value.null),
    ("author_name", Value.null),
    ("created", Value.null),
    ("modified", Value.null),
    ("tags", Value.list []),
    ("references", Value.list []) ]

/-- Server answering the example page
`{"results": [{"id": "p1", "name": "X"}], "next": null}` at the base url. -/
def singlePageServer : Value → Option Value := fun u =>
  if u = Value.str BASE_URL then
    some (Value.obj [("results", Value.list [Value.obj rawPulseP1]),
                     ("next", Value.null)])
  else none

/-- The identifier a raw record is keyed by (what the transform puts
under `_id`). -/
def idOf (p : Obj) : Value := getV p "id"

/-! ### Fetcher lemmas -/

theorem fetchGo_step_200 (server : Nat → HttpResult) (b a f : Nat) (body : Value)
    (h : server a = .response 200 body) :
    fetchGo server b a (f + 1) = ⟨some body, [], 1⟩ := by
  simp [fetchGo, h]

theorem fetchGo_step_break (server : Nat → HttpResult) (b a f code : Nat)
    (body : Value) (h : server a = .response code body)
    (h200 : code ≠ 200) (h429 : code ≠ 429) :
    fetchGo server b a (f + 1) = ⟨none, [], 1⟩ := by
  simp [fetchGo, h, h200, h429]

theorem fetchGo_step_transient (server : Nat → HttpResult) (b a f : Nat)
    (h : isTransient (server a) = true) :
    fetchGo server b a (f + 1) =
      ⟨(fetchGo server b (a + 1) f).result,
       b * 2 ^ a :: (fetchGo server b (a + 1) f).sleeps,
       1 + (fetchGo server b (a + 1) f).attemptsMade⟩ := by
  cases hs : server a with
  | response c body =>
      rw [hs] at h
      simp only [isTransient, beq_iff_eq] at h
      subst h
      simp [fetchGo, hs]
  | exn => simp [fetchGo, hs]

/-- Running through a prefix of `j` transient attempts accumulates exactly
the backoff sleeps `b * 2 ^ a, …, b * 2 ^ (a + j - 1)` and continues from
attempt `a + j` with `j` fewer units of budget. -/
theorem fetchGo_transient_run (server : Nat → HttpResult) (b j a fuel : Nat)
    (hj : j ≤ fuel)
    (htrans : ∀ n, n < j → isTransient (server (a + n)) = true) :
    fetchGo server b a fuel =
      ⟨(fetchGo server b (a + j) (fuel - j)).result,
       ((List.range' a j).map (fun n => b * 2 ^ n)) ++
         (fetchGo server b (a + j) (fuel - j)).sleeps,
       j + (fetchGo server b (a + j) (fuel - j)).attemptsMade⟩ := by
  induction j generalizing a fuel with
  | zero => simp
  | succ j ih =>
      obtain ⟨f, rfl⟩ : ∃ f, fuel = f + 1 := ⟨fuel - 1, by omega⟩
      rw [fetchGo_step_transient server b a f (by simpa using htrans 0 (by omega))]
      rw [ih (a + 1) f (by omega)
        (fun n hn => by
          have := htrans (n + 1) (by omega)
          simpa [Nat.add_assoc, Nat.add_comm 1 n] using this)]
      have haj : a + 1 + j = a + (j + 1) := by omega
      have hfj : f - j = f + 1 - (j + 1) := by omega
      rw [haj, hfj]
      simp [List.range'_succ, FetchOut.mk.injEq]
      omega

/-- Exhausting the budget on transient outcomes alone: the loop performs
every attempt, sleeps after each one, and falls through to `return None`. -/
theorem fetch_exhausted (server : Nat → HttpResult) (retries b : Nat)
    (htrans : ∀ n, n < retries → isTransient (server n) = true) :
    fetch_with_retries server retries b =
      ⟨none, (List.range retries).map (fun n => b * 2 ^ n), retries⟩ := by
  have hrun := fetchGo_transient_run server b retries 0 retries le_rfl
    (fun n hn => by simpa using htrans n hn)
  unfold fetch_with_retries
  rw [hrun]
  simp [fetchGo, List.range_eq_range']

/-- C1 counterexample: with the fetcher's own budget of `retries = 3`
(the default used at every call site), a target answering 3 consecutive
429 responses followed by a success makes `fetch_with_retries` return the
absent-result sentinel `None`, not the successful payload: the three
rate limits exhaust the three-attempt budget and the success response at
attempt 3 is never requested. -/
theorem fetch_three_rate_limits_default_budget_cex :
    rateLimitedServer 0 = .response 429 Value.null ∧
    rateLimitedServer 1 = .response 429 Value.null ∧
    rateLimitedServer 2 = .response 429 Value.null ∧
    rateLimitedServer 3 = .response 200 (Value.str "ok") ∧
    (fetch_with_retries rateLimitedServer 3 2).result = none :=
  ⟨rfl, rfl, rfl, rfl, rfl⟩

/-- C1 (amended): when the retry budget is at least 4 (so that a fourth
attempt exists; the default budget of 3 is exhausted by the three rate
limits and yields `None`), a target answering 3 consecutive 429 responses
followed by a success makes the fetcher return the successful parsed
payload, and the backoff sleeps before each retry are
`backoff_factor * 2 ^ attempt` for attempt = 0, 1, 2, strictly increasing
whenever the backoff factor is positive. -/
theorem fetch_success_after_three_rate_limits (server : Nat → HttpResult)
    (retries b : Nat) (body : Value)
    (h429 : ∀ n, n < 3 → ∃ bd, server n = .response 429 bd)
    (h200 : server 3 = .response 200 body)
    (hr : 4 ≤ retries) (hb : 0 < b) :
    (fetch_with_retries server retries b).result = some body ∧
    (fetch_with_retries server retries b).sleeps =
      [b * 2 ^ 0, b * 2 ^ 1, b * 2 ^ 2] ∧
    b * 2 ^ 0 < b * 2 ^ 1 ∧ b * 2 ^ 1 < b * 2 ^ 2 := by
  have htrans : ∀ n, n < 3 → isTransient (server n) = true := by
    intro n hn
    obtain ⟨bd, hbd⟩ := h429 n hn
    simp [isTransient, hbd]
  have hrun := fetchGo_transient_run server b 3 0 retries (by omega)
    (fun n hn => by simpa using htrans n hn)
  obtain ⟨f, hf⟩ : ∃ f, retries - 3 = f + 1 := ⟨retries - 4, by omega⟩
  unfold fetch_with_retries
  rw [hrun, hf, fetchGo_step_200 server b 3 f body (by simpa using h200)]
  refine ⟨rfl, rfl, ?_, ?_⟩
  · simp only [pow_zero, pow_one, mul_one]
    omega
  · have h1 : b * 2 ^ 1 = 2 * b := by ring
    have h2 : b * 2 ^ 2 = 4 * b := by ring
    omega

/-- Witness for C1: the amended theorem at the concrete rate-limited
server with budget 4 and backoff factor 2. -/
theorem fetch_success_after_three_rate_limits_witness :
    (fetch_with_retries rateLimitedServer 4 2).result = some (Value.str "ok") ∧
    (fetch_with_retries rateLimitedServer 4 2).sleeps =
      [2 * 2 ^ 0, 2 * 2 ^ 1, 2 * 2 ^ 2] ∧
    2 * 2 ^ 0 < 2 * 2 ^ 1 ∧ 2 * 2 ^ 1 < 2 * 2 ^ 2 :=
  fetch_success_after_three_rate_limits rateLimitedServer 4 2 (Value.str "ok")
    (fun n hn => ⟨Value.null, by simp [rateLimitedServer, hn]⟩)
    rfl (by omega) (by omega)

/-- C7: a non-transient unsuccessful status (neither 200 nor 429) at
attempt `i` makes the fetcher break out of the loop: exactly `i + 1`
attempts are issued, the sleeps are exactly those of the `i` transient
attempts before it (none for the breaking status), and the result is the
sentinel `None`; and after a budget fully exhausted by transient
outcomes the result is likewise `None`. The embedding is a total
function into `Option`, so no exception reaches the caller. -/
theorem fetch_nontransient_aborts (server : Nat → HttpResult)
    (retries b i code : Nat) (body : Value)
    (htrans : ∀ n, n < i → isTransient (server n) = true)
    (hbad : server i = .response code body)
    (h200 : code ≠ 200) (h429 : code ≠ 429) (hi : i < retries) :
    (fetch_with_retries server retries b).result = none ∧
    (fetch_with_retries server retries b).attemptsMade = i + 1 ∧
    (fetch_with_retries server retries b).sleeps =
      (List.range i).map (fun n => b * 2 ^ n) ∧
    (∀ (srv : Nat → HttpResult) (r c : Nat),
       (∀ n, n < r → isTransient (srv n) = true) →
       (fetch_with_retries srv r c).result = none) := by
  have hrun := fetchGo_transient_run server b i 0 retries (by omega)
    (fun n hn => by simpa using htrans n hn)
  simp only [Nat.zero_add] at hrun
  obtain ⟨f, hf⟩ : ∃ f, retries - i = f + 1 := ⟨retries - i - 1, by omega⟩
  unfold fetch_with_retries
  rw [hrun, hf, fetchGo_step_break server b i f code body hbad h200 h429]
  refine ⟨rfl, rfl, by simp [List.range_eq_range'], ?_⟩
  intro srv r c h
  have hx := fetch_exhausted srv r c h
  unfold fetch_with_retries at hx
  rw [hx]

/-- Witness for C7: a 404 on the very first attempt with budget 3. -/
theorem fetch_nontransient_aborts_witness :
    (fetch_with_retries notFoundServer 3 2).result = none ∧
    (fetch_with_retries notFoundServer 3 2).attemptsMade = 0 + 1 ∧
    (fetch_with_retries notFoundServer 3 2).sleeps =
      (List.range 0).map (fun n => 2 * 2 ^ n) ∧
    (∀ (srv : Nat → HttpResult) (r c : Nat),
       (∀ n, n < r → isTransient (srv n) = true) →
       (fetch_with_retries srv r c).result = none) :=
  fetch_nontransient_aborts notFoundServer 3 2 0 404 Value.null
    (fun n hn => absurd hn (by omega)) rfl (by omega) (by omega) (by omega)

/-- C9: when every attempt of a positive budget `r + 1` ends in a
transient outcome (rate limit or network error), the final attempt is
still followed by a full backoff sleep of
`backoff_factor * 2 ^ (retries - 1)` — the last element of the sleep
sequence — even though no further retry follows, and the fetcher then
returns the sentinel `None`. -/
theorem fetch_final_transient_attempt_sleeps (server : Nat → HttpResult)
    (r b : Nat)
    (htrans : ∀ n, n < r + 1 → isTransient (server n) = true) :
    (fetch_with_retries server (r + 1) b).result = none ∧
    (fetch_with_retries server (r + 1) b).sleeps =
      (List.range (r + 1)).map (fun n => b * 2 ^ n) ∧
    (fetch_with_retries server (r + 1) b).sleeps.getLast? =
      some (b * 2 ^ (r + 1 - 1)) := by
  rw [fetch_exhausted server (r + 1) b htrans]
  refine ⟨rfl, rfl, ?_⟩
  simp [List.range_succ]

/-- Witness for C9: every attempt raises a network error, budget 3. -/
theorem fetch_final_transient_attempt_sleeps_witness :
    (fetch_with_retries downServer (2 + 1) 2).result = none ∧
    (fetch_with_retries downServer (2 + 1) 2).sleeps =
      (List.range (2 + 1)).map (fun n => 2 * 2 ^ n) ∧
    (fetch_with_retries downServer (2 + 1) 2).sleeps.getLast? =
      some (2 * 2 ^ (2 + 1 - 1)) :=
  fetch_final_transient_attempt_sleeps downServer 2 2 (fun _ _ => rfl)

/-! ### Transform and loader lemmas -/

theorem getD_of_hasKey_false (o : Obj) (k : String) (dflt : Value)
    (h : hasKey o k = false) : getD o k dflt = dflt := by
  induction o with
  | nil => rfl
  | cons kv rest ih =>
      obtain ⟨k', v⟩ := kv
      simp only [hasKey, Bool.or_eq_false_iff, decide_eq_false_iff_not] at h
      simp [getD, h.1, ih h.2]

/-- C2 counterexample: on the raw pulse `{"id": "p1"}` — whose identifier
is non-null — applying `transform_pulse` twice does not equal applying it
once: the transform reads key `"id"` but writes key `"_id"`, so the
second application finds no `"id"` key and nulls the identifier. -/
theorem transform_pulse_not_idempotent_cex :
    getV idPulse "id" ≠ Value.null ∧
    transform_pulse (transform_pulse idPulse) ≠ transform_pulse idPulse := by
  refine ⟨by decide, by decide⟩

/-- C2 (amended): applying `transform_pulse` twice yields the same
normalized record as applying it once on every field except the
identifier: the second application maps `"_id"` to null (the transform
reads `"id"`, a key its own output never contains) and leaves the seven
remaining fields unchanged. -/
theorem transform_pulse_twice (pulse : Obj) :
    transform_pulse (transform_pulse pulse) =
      ("_id", Value.null) :: (transform_pulse pulse).tail := rfl

/-- Witness for C2: the amended theorem at the counterexample's pulse. -/
theorem transform_pulse_twice_witness :
    transform_pulse (transform_pulse idPulse) =
      ("_id", Value.null) :: (transform_pulse idPulse).tail :=
  transform_pulse_twice idPulse

/-- C5: a record whose identifier is null, absent, or the empty string is
skipped by the loader: neither the store nor the new-insert count changes
on its account (no write is attempted; the code logs a warning), and the
remaining records of the batch are processed exactly as if the skipped
record were not there. -/
theorem load_pulses_skips_missing_id (p : Obj) (rest : List Obj) (store : Store)
    (h : getV p "id" = Value.null ∨ hasKey p "id" = false ∨
         getV p "id" = Value.str "") :
    load_pulses (p :: rest) store = load_pulses rest store := by
  have hf : truthy (getV (transform_pulse p) "_id") = false := by
    have hid : getV (transform_pulse p) "_id" = getV p "id" := rfl
    rw [hid]
    rcases h with h | h | h
    · rw [h]; rfl
    · rw [getV, getD_of_hasKey_false p "id" Value.null h]; rfl
    · rw [h]; rfl
  simp [load_pulses, hf]

/-- Witness for C5: a null-identifier record ahead of a good one. -/
theorem load_pulses_skips_missing_id_witness :
    load_pulses [[("id", Value.null)], [("id", Value.str "ok")]] [] =
      load_pulses [[("id", Value.str "ok")]] [] :=
  load_pulses_skips_missing_id [("id", Value.null)] [[("id", Value.str "ok")]]
    [] (Or.inl rfl)

/-- C10: the loader's skip test is Python truthiness of the transformed
identifier, so every record whose transformed `_id` is falsy is skipped
— no write is attempted and nothing is added to the new-insert count —
and the falsy values include not only null but also `False`, integer 0,
the empty string, the empty list and the empty dict. -/
theorem load_pulses_skips_falsy_id (p : Obj) (rest : List Obj) (store : Store)
    (h : truthy (getV (transform_pulse p) "_id") = false) :
    load_pulses (p :: rest) store = load_pulses rest store ∧
    truthy Value.null = false ∧
    truthy (Value.bool false) = false ∧
    truthy (Value.int 0) = false ∧
    truthy (Value.str "") = false ∧
    truthy (Value.list []) = false ∧
    truthy (Value.obj []) = false := by
  refine ⟨?_, rfl, rfl, rfl, rfl, rfl, rfl⟩
  simp [load_pulses, h]

/-- Witness for C10: a record whose identifier is integer 0 is skipped. -/
theorem load_pulses_skips_falsy_id_witness :
    load_pulses [[("id", Value.int 0)], [("id", Value.str "ok")]] [] =
      load_pulses [[("id", Value.str "ok")]] [] ∧
    truthy Value.null = false ∧
    truthy (Value.bool false) = false ∧
    truthy (Value.int 0) = false ∧
    truthy (Value.str "") = false ∧
    truthy (Value.list []) = false ∧
    truthy (Value.obj []) = false :=
  load_pulses_skips_falsy_id [("id", Value.int 0)] [[("id", Value.str "ok")]]
    [] rfl

/-! ### Paginator lemmas -/

theorem extract_loop_length_le (f : Value → Option Value) :
    ∀ (fuel : Nat) (url : Value) (pc : Nat),
      (extract_loop f url pc fuel).length ≤ MAX_PAGES - pc := by
  intro fuel
  induction fuel with
  | zero => intro url pc; simp [extract_loop]
  | succ fuel ih =>
      intro url pc
      rw [extract_loop]
      split
      case isTrue h =>
        rcases hf : f url with _ | data
        · simp [hf]
        · rcases data with _ | b | n | s | l | fields
          · simp [hf]
          · simp [hf]
          · simp [hf]
          · simp [hf]
          · simp [hf]
          · rcases hr : getV fields "results" with _ | b | n | s | results | o
            · simp [hf, hr]
            · simp [hf, hr]
            · simp [hf, hr]
            · simp [hf, hr]
            · have := ih (getV fields "next") (pc + 1)
              simp only [hf, hr, List.length_cons]
              omega
            · simp [hf, hr]
      case isFalse h => simp

theorem extract_loop_length_eq (f : Value → Option Value)
    (hvalid : ∀ url, truthy url = true →
      ∃ fields results nxt, f url = some (Value.obj fields) ∧
        getV fields "results" = Value.list results ∧
        getV fields "next" = nxt ∧ truthy nxt = true) :
    ∀ (fuel pc : Nat) (url : Value), truthy url = true →
      pc + fuel = MAX_PAGES →
      (extract_loop f url pc fuel).length = fuel := by
  intro fuel
  induction fuel with
  | zero => intro pc url _ _; simp [extract_loop]
  | succ fuel ih =>
      intro pc url hu hpc
      obtain ⟨fields, results, nxt, hf, hr, hn, hnx⟩ := hvalid url hu
      rw [extract_loop, if_pos ⟨hu, by omega⟩, hf]
      simp only
      rw [hr]
      simp only [List.length_cons]
      rw [hn, ih (pc + 1) nxt hnx (by omega)]

/-- C4: against a server that at every truthy url returns a mapping with
a list-valued `results` and a truthy continuation cursor, the paginator
yields exactly `MAX_PAGES` pages and terminates; and for every server
whatsoever the sequence of pages is finite with length at most
`MAX_PAGES`. -/
theorem extract_pulses_page_ceiling (f : Value → Option Value)
    (hvalid : ∀ url, truthy url = true →
      ∃ fields results nxt, f url = some (Value.obj fields) ∧
        getV fields "results" = Value.list results ∧
        getV fields "next" = nxt ∧ truthy nxt = true) :
    (extract_pulses f).length = MAX_PAGES ∧
    ∀ g : Value → Option Value, (extract_pulses g).length ≤ MAX_PAGES := by
  constructor
  · exact extract_loop_length_eq f hvalid MAX_PAGES 0 (Value.str BASE_URL)
      (by decide) (Nat.zero_add MAX_PAGES)
  · intro g
    have := extract_loop_length_le g MAX_PAGES (Value.str BASE_URL) 0
    simpa using this

/-- Witness for C4: the ever-continuing server produces exactly
`MAX_PAGES` pages. -/
theorem extract_pulses_page_ceiling_witness :
    (extract_pulses loopingServer).length = MAX_PAGES ∧
    ∀ g : Value → Option Value, (extract_pulses g).length ≤ MAX_PAGES :=
  extract_pulses_page_ceiling loopingServer
    (fun _ _ => ⟨[("results", Value.list []), ("next", Value.str "more")],
      [], Value.str "more", rfl, rfl, rfl, rfl⟩)

/-- C6: a payload that is a mapping whose `results` field is missing or
not a list halts pagination at that page — the loop yields no page there
and ends (the embedding is a total function, so nothing is raised) —
while pages are yielded incrementally: a valid page contributes its
records in front of whatever the remaining iteration produces, so every
page yielded before the bad page is unaffected by it. -/
theorem extract_loop_bad_results_halts (f : Value → Option Value)
    (url : Value) (pc fuel : Nat) (fields : Obj)
    (hu : truthy url = true) (hpc : pc < MAX_PAGES)
    (hf : f url = some (Value.obj fields))
    (hbad : ∀ rs, getV fields "results" ≠ Value.list rs) :
    extract_loop f url pc (fuel + 1) = [] ∧
    (∀ (g : Value → Option Value) (u : Value) (c n : Nat) (flds : Obj)
       (rs : List Value),
       truthy u = true → c < MAX_PAGES →
       g u = some (Value.obj flds) → getV flds "results" = Value.list rs →
       extract_loop g u c (n + 1) =
         rs :: extract_loop g (getV flds "next") (c + 1) n) := by
  constructor
  · rw [extract_loop, if_pos ⟨hu, hpc⟩]
    rcases hval : getV fields "results" with _ | b | n | s | results | o
    · simp [hf, hval]
    · simp [hf, hval]
    · simp [hf, hval]
    · simp [hf, hval]
    · exact absurd hval (hbad results)
    · simp [hf, hval]
  · intro g u c n flds rs hu' hc hg hr
    rw [extract_loop, if_pos ⟨hu', hc⟩]
    simp [hg, hr]

/-- Witness for C6: the paginator stops at the malformed page. -/
theorem extract_loop_bad_results_halts_witness :
    extract_loop noResultsServer (Value.str "u") 0 (4 + 1) = [] ∧
    (∀ (g : Value → Option Value) (u : Value) (c n : Nat) (flds : Obj)
       (rs : List Value),
       truthy u = true → c < MAX_PAGES →
       g u = some (Value.obj flds) → getV flds "results" = Value.list rs →
       extract_loop g u c (n + 1) =
         rs :: extract_loop g (getV flds "next") (c + 1) n) :=
  extract_loop_bad_results_halts noResultsServer (Value.str "u") 0 4
    [("error", Value.str "oops")] rfl (by decide) rfl
    (fun _ h => Value.noConfusion h)

/-! ### The worked example (C8) -/

/-- C8: the example page yields exactly one page holding the one raw
record, pagination stops there because the continuation cursor is null
(falsy); transforming the record gives exactly the normalized document of
the spec, and loading it upserts exactly that document, counted as one
new insert. In general, on a record lacking a field, the transform maps
the list-typed fields `tags` and `references` to empty lists and every
other field (including the identifier) to null. -/
theorem pipeline_example_page :
    extract_pulses singlePageServer = [[Value.obj rawPulseP1]] ∧
    transform_pulse rawPulseP1 = normalizedP1 ∧
    load_pulses [rawPulseP1] [] = ([(Value.str "p1", normalizedP1)], 1) ∧
    (∀ q : Obj, hasKey q "tags" = false →
        getV (transform_pulse q) "tags" = Value.list []) ∧
    (∀ q : Obj, hasKey q "references" = false →
        getV (transform_pulse q) "references" = Value.list []) ∧
    (∀ q : Obj, hasKey q "name" = false →
        getV (transform_pulse q) "name" = Value.null) ∧
    (∀ q : Obj, hasKey q "description" = false →
        getV (transform_pulse q) "description" = Value.null) ∧
    (∀ q : Obj, hasKey q "author_name" = false →
        getV (transform_pulse q) "author_name" = Value.null) ∧
    (∀ q : Obj, hasKey q "created" = false →
        getV (transform_pulse q) "created" = Value.null) ∧
    (∀ q : Obj, hasKey q "modified" = false →
        getV (transform_pulse q) "modified" = Value.null) ∧
    (∀ q : Obj, hasKey q "id" = false →
        getV (transform_pulse q) "_id" = Value.null) := by
  refine ⟨rfl, rfl, rfl, ?_, ?_, ?_, ?_, ?_, ?_, ?_, ?_⟩
  · intro q hq
    exact getD_of_hasKey_false q "tags" (Value.list []) hq
  · intro q hq
    exact getD_of_hasKey_false q "references" (Value.list []) hq
  · intro q hq
    exact getD_of_hasKey_false q "name" Value.null hq
  · intro q hq
    exact getD_of_hasKey_false q "description" Value.null hq
  · intro q hq
    exact getD_of_hasKey_false q "author_name" Value.null hq
  · intro q hq
    exact getD_of_hasKey_false q "created" Value.null hq
  · intro q hq
    exact getD_of_hasKey_false q "modified" Value.null hq
  · intro q hq
    exact getD_of_hasKey_false q "id" Value.null hq

/-- Witness for C8: the absent-field clauses at a record having only an
identifier. -/
theorem pipeline_example_page_witness :
    getV (transform_pulse [("id", Value.str "z")]) "tags" = Value.list [] ∧
    getV (transform_pulse [("id", Value.str "z")]) "description" = Value.null ∧
    getV (transform_pulse ([] : Obj)) "_id" = Value.null :=
  ⟨pipeline_example_page.2.2.2.1 [("id", Value.str "z")] rfl,
   pipeline_example_page.2.2.2.2.2.2.1 [("id", Value.str "z")] rfl,
   pipeline_example_page.2.2.2.2.2.2.2.2.2.2 [] rfl⟩

/-! ### Upsert idempotence (C3) -/

theorem idOf_transform (p : Obj) :
    getV (transform_pulse p) "_id" = idOf p := rfl

theorem setFields_transform_self (p : Obj) :
    setFields (transform_pulse p) (transform_pulse p) = transform_pulse p :=
  rfl

/-- Upserting a key absent from the store appends the document and
reports a new insert. -/
theorem update_one_fresh (store : Store) (key : Value) (doc : Obj)
    (h : key ∉ store.map Prod.fst) :
    update_one store key doc = (store ++ [(key, doc)], true) := by
  induction store with
  | nil => rfl
  | cons e rest ih =>
      obtain ⟨k, d⟩ := e
      simp only [List.map_cons, List.mem_cons, not_or] at h
      rw [update_one, if_neg (fun hh => h.1 hh.symm), ih h.2]
      rfl

/-- Upserting a key present in a duplicate-free store with an update that
leaves the stored document unchanged returns the store unchanged and
reports no new insert. -/
theorem update_one_mem_id (store : Store) (key : Value) (d doc : Obj)
    (hnd : (store.map Prod.fst).Nodup)
    (hmem : (key, d) ∈ store) (hset : setFields d doc = d) :
    update_one store key doc = (store, false) := by
  induction store with
  | nil => cases hmem
  | cons e rest ih =>
      obtain ⟨k, w⟩ := e
      simp only [List.map_cons, List.nodup_cons] at hnd
      rcases List.mem_cons.mp hmem with heq | hmem'
      · injection heq with h1 h2
        subst h1
        subst h2
        rw [update_one, if_pos rfl, hset]
      · have hk : ¬ k = key := by
          intro hh
          subst hh
          exact hnd.1 (List.mem_map.mpr ⟨(k, d), hmem', rfl⟩)
        rw [update_one, if_neg hk, ih hnd.2 hmem']

/-- Loading a batch of truthy, pairwise-distinct identifiers all fresh
for the store appends one document per record and counts them all. -/
theorem load_pulses_fresh (batch : List Obj) (store : Store)
    (htr : ∀ p ∈ batch, truthy (idOf p) = true)
    (hnd : (batch.map idOf).Nodup)
    (hfresh : ∀ p ∈ batch, idOf p ∉ store.map Prod.fst) :
    load_pulses batch store =
      (store ++ batch.map (fun p => (idOf p, transform_pulse p)),
       batch.length) := by
  induction batch generalizing store with
  | nil => simp [load_pulses]
  | cons p rest ih =>
      simp only [List.map_cons, List.nodup_cons] at hnd
      have ht : truthy (idOf p) = true := htr p (List.mem_cons_self p rest)
      have hup := update_one_fresh store (idOf p) (transform_pulse p)
        (hfresh p (List.mem_cons_self p rest))
      have hrest := ih
        (store ++ [(idOf p, transform_pulse p)])
        (fun q hq => htr q (List.mem_cons_of_mem p hq)) hnd.2
        (fun q hq => by
          rw [List.map_append]
          intro hc
          rcases List.mem_append.mp hc with hc1 | hc2
          · exact hfresh q (List.mem_cons_of_mem p hq) hc1
          · have hqp : idOf q = idOf p := by simpa using hc2
            exact hnd.1 (hqp ▸ List.mem_map_of_mem idOf hq))
      rw [load_pulses]
      simp only [idOf_transform, ht, if_true, hup, hrest, List.map_cons,
        List.length_cons, List.append_assoc, List.singleton_append,
        Prod.mk.injEq, true_and]
      omega

/-- Running the page loop over pages of truthy, globally distinct, fresh
identifiers appends everything and counts every record. -/
theorem run_etl_loop_fresh (pages : List (List Obj)) (store : Store)
    (htr : ∀ pg ∈ pages, ∀ p ∈ pg, truthy (idOf p) = true)
    (hnd : (pages.flatten.map idOf).Nodup)
    (hfresh : ∀ pg ∈ pages, ∀ p ∈ pg, idOf p ∉ store.map Prod.fst) :
    run_etl_loop pages store =
      (store ++ pages.flatten.map (fun p => (idOf p, transform_pulse p)),
       pages.flatten.length) := by
  induction pages generalizing store with
  | nil => simp [run_etl_loop]
  | cons pg rest ih =>
      simp only [List.flatten_cons, List.map_append, List.nodup_append] at hnd
      have h1 := load_pulses_fresh pg store
        (htr pg (List.mem_cons_self pg rest)) hnd.1
        (hfresh pg (List.mem_cons_self pg rest))
      have h2 := ih
        (store ++ pg.map (fun p => (idOf p, transform_pulse p)))
        (fun pg' h' p hp => htr pg' (List.mem_cons_of_mem pg h') p hp)
        hnd.2.1
        (fun pg' h' p hp => by
          rw [List.map_append]
          intro hc
          rcases List.mem_append.mp hc with hc1 | hc2
          · exact hfresh pg' (List.mem_cons_of_mem pg h') p hp hc1
          · have hc2' : ∃ a ∈ pg, idOf a = idOf p := by
              simpa [List.map_map, Function.comp] using hc2
            obtain ⟨a, ha, he⟩ := hc2'
            have hout : idOf p ∈ rest.flatten.map idOf :=
              List.mem_map_of_mem idOf
                (List.mem_flatten.mpr ⟨pg', h', hp⟩)
            exact hnd.2.2 (he ▸ List.mem_map_of_mem idOf ha) hout)
      rw [run_etl_loop]
      simp only [h1, h2, List.flatten_cons, List.map_append,
        List.length_append, List.append_assoc, Prod.mk.injEq]

/-- Re-loading a batch whose every record is already stored under its own
identifier with its own transformed document changes nothing and counts
no new insert. -/
theorem load_pulses_idem (batch : List Obj) (store : Store)
    (hnd : (store.map Prod.fst).Nodup)
    (hmem : ∀ p ∈ batch, truthy (idOf p) = true ∧
        (idOf p, transform_pulse p) ∈ store) :
    load_pulses batch store = (store, 0) := by
  induction batch with
  | nil => rfl
  | cons p rest ih =>
      obtain ⟨ht, hm⟩ := hmem p (List.mem_cons_self p rest)
      have hu := update_one_mem_id store (idOf p) (transform_pulse p)
        (transform_pulse p) hnd hm (setFields_transform_self p)
      rw [load_pulses]
      simp only [idOf_transform, ht, if_true, hu,
        ih (fun q hq => hmem q (List.mem_cons_of_mem p hq))]
      rfl

/-- Re-running the page loop over pages whose every record is already
stored changes nothing and counts no new insert. -/
theorem run_etl_loop_idem (pages : List (List Obj)) (store : Store)
    (hnd : (store.map Prod.fst).Nodup)
    (hmem : ∀ pg ∈ pages, ∀ p ∈ pg, truthy (idOf p) = true ∧
        (idOf p, transform_pulse p) ∈ store) :
    run_etl_loop pages store = (store, 0) := by
  induction pages with
  | nil => rfl
  | cons pg rest ih =>
      rw [run_etl_loop]
      simp only [load_pulses_idem pg store hnd
          (hmem pg (List.mem_cons_self pg rest)),
        ih (fun pg' h' => hmem pg' (List.mem_cons_of_mem pg h'))]

theorem length_flatten_const (l : List (List Obj)) (k : Nat)
    (h : ∀ x ∈ l, x.length = k) : l.flatten.length = l.length * k := by
  induction l with
  | nil => simp
  | cons x xs ih =>
      simp only [List.flatten_cons, List.length_append, List.length_cons,
        h x (List.mem_cons_self x xs),
        ih (fun y hy => h y (List.mem_cons_of_mem x hy))]
      ring

/-- C3 counterexample: a single page holding a single record whose
identifier is the empty string — non-null, and trivially pairwise
unique — produces a total new-insert count of 0, not N*k = 1: the loader
skips every record with a falsy identifier, not only null ones, so
"non-null" is not enough for the N*k count. -/
theorem etl_upsert_idempotent_cex :
    idOf [("id", Value.str "")] ≠ Value.null ∧
    (run_etl_loop [[[("id", Value.str "")]]] []).2 = 0 :=
  ⟨fun h => Value.noConfusion h, rfl⟩

/-- C3 (amended: the records' identifiers must be truthy — non-null is
not enough, because the loader skips every falsy identifier, e.g. the
empty string; see the counterexample): loading N pages of k records with
pairwise distinct truthy identifiers into an empty store gives a total
new-insert count of N*k, and running the same load again against the
resulting store gives a total new-insert count of 0 and returns the store
exactly unchanged — each existing document is overwritten in place with
the same fields and not counted as new. -/
theorem etl_upsert_idempotent (pages : List (List Obj)) (N k : Nat)
    (hN : pages.length = N)
    (hk : ∀ pg ∈ pages, pg.length = k)
    (htr : ∀ pg ∈ pages, ∀ p ∈ pg, truthy (idOf p) = true)
    (hnd : (pages.flatten.map idOf).Nodup) :
    (run_etl_loop pages []).2 = N * k ∧
    run_etl_loop pages (run_etl_loop pages []).1 =
      ((run_etl_loop pages []).1, 0) := by
  have h1 := run_etl_loop_fresh pages [] htr hnd (by simp)
  rw [h1]
  constructor
  · show pages.flatten.length = N * k
    rw [length_flatten_const pages k hk, hN]
  · apply run_etl_loop_idem
    · show ((pages.flatten.map
          (fun p => (idOf p, transform_pulse p))).map Prod.fst).Nodup
      simpa [List.map_map, Function.comp] using hnd
    · intro pg hpg p hp
      refine ⟨htr pg hpg p hp, ?_⟩
      show (idOf p, transform_pulse p) ∈
        pages.flatten.map (fun p => (idOf p, transform_pulse p))
      exact List.mem_map_of_mem _ (List.mem_flatten.mpr ⟨pg, hpg, hp⟩)

/-- Witness for C3: two pages of one record each, identifiers "a", "b". -/
theorem etl_upsert_idempotent_witness :
    (run_etl_loop [[[("id", Value.str "a")]], [[("id", Value.str "b")]]]
        []).2 = 2 * 1 ∧
    run_etl_loop [[[("id", Value.str "a")]], [[("id", Value.str "b")]]]
        (run_etl_loop [[[("id", Value.str "a")]], [[("id", Value.str "b")]]]
          []).1 =
      ((run_etl_loop [[[("id", Value.str "a")]], [[("id", Value.str "b")]]]
          []).1, 0) :=
  etl_upsert_idempotent
    [[[("id", Value.str "a")]], [[("id", Value.str "b")]]] 2 1
    rfl (by decide) (by decide) (by decide)

end ETL
